import Mathlib

/- Verification development for the uniswapv3-pool-data repository
   (src/index.ts, src/abi.ts): a shallow embedding of the pool discovery
   and pricing pipeline, followed by theorems settling the specification
   claims.

   Conventions of the embedding:
   * Blockchain / HTTP responses are passed in as explicit arguments
     (the multicall result lists, the price-feed response), since the
     code only consumes them read-only.
   * A JavaScript number is modelled as `Option ℚ`: `none` models NaN
     (and `undefined` flowing into arithmetic, which yields NaN in JS);
     arithmetic on floats is modelled exactly over ℚ, which is adequate
     for the claims (the spec itself allows a 1e-9 relative tolerance
     for float rounding).
   * A `bigint`-or-`undefined` value (a multicall `result` field) is
     modelled as `Option ℕ`.
   * Addresses are the literal JS strings the code compares. -/

/- JS number with NaN: `none` is NaN. `x * NaN = NaN`, `x + NaN = NaN`. -/
def JSNum : Type := Option ℚ

def jmul (a b : JSNum) : JSNum :=
  match a, b with
  | some x, some y => some (x * y)
  | _, _ => none

def jadd (a b : JSNum) : JSNum :=
  match a, b with
  | some x, some y => some (x + y)
  | _, _ => none

/- src/index.ts chunkArray: slices of `size` starting at 0, size, 2*size, ...
   For size = 0 the JS loop never terminates; the embedding returns [] there,
   and every theorem about chunkArray assumes 0 < size (claim C10 does too).
   The first argument of the helper is pure structural-recursion fuel; it is
   always at least the length of the list (each step removes at least one
   element), so the fuel-exhausted branch is unreachable. -/
def chunkArrayGo {α : Type} : ℕ → List α → ℕ → List (List α)
  | _, [], _ => []
  | _, _ :: _, 0 => []
  | 0, _ :: _, _ + 1 => []
  | f + 1, a :: as, s + 1 =>
    (a :: as).take (s + 1) :: chunkArrayGo f (as.drop s) (s + 1)

def chunkArray {α : Type} (arr : List α) (size : ℕ) : List (List α) :=
  chunkArrayGo arr.length arr size

theorem chunkArrayGo_fuel {α : Type} :
    ∀ (f : ℕ) (l : List α) (s : ℕ), l.length ≤ f →
      chunkArrayGo f l s = chunkArrayGo l.length l s := by
  intro f
  induction f using Nat.strong_induction_on with
  | _ f ih =>
    intro l s hl
    cases l with
    | nil => cases f <;> cases s <;> rfl
    | cons a as =>
      cases s with
      | zero => cases f <;> rfl
      | succ s =>
        cases f with
        | zero => simp at hl
        | succ f =>
          simp only [List.length_cons] at hl
          have hd : (as.drop s).length = as.length - s := List.length_drop ..
          simp only [chunkArrayGo, List.length_cons]
          rw [ih f (by omega) _ _ (by omega),
            ih as.length (by omega) _ _ (by omega)]

theorem chunkArray_cons {α : Type} (a : α) (as : List α) (s : ℕ) :
    chunkArray (a :: as) (s + 1) =
      (a :: as).take (s + 1) :: chunkArray (as.drop s) (s + 1) := by
  show chunkArrayGo (as.length + 1) (a :: as) (s + 1) = _
  simp only [chunkArrayGo]
  rw [chunkArrayGo_fuel as.length (as.drop s) (s + 1)
    (by simp only [List.length_drop]; omega)]
  rfl

theorem chunkArray_nil {α : Type} (s : ℕ) : chunkArray ([] : List α) s = [] :=
  rfl

/- JS string comparison (`<` on strings): lexicographic on UTF-16 code units,
   a proper prefix is smaller. For the code-point range used by addresses,
   code units and code points coincide, so we compare Char.toNat. -/
def strLtB : List Char → List Char → Bool
  | _, [] => false
  | [], _ :: _ => true
  | a :: as, b :: bs =>
    if a.toNat < b.toNat then true
    else if b.toNat < a.toNat then false
    else strLtB as bs

/- JS `a > b` on strings is `b < a`. -/
def jsGtStr (a b : String) : Bool := strLtB b.data a.data

/- Numeric value of a hex digit (both cases; other chars have no meaning
   in a well-formed address and map to 0). -/
def hexDigitValN (n : ℕ) : ℕ :=
  if 48 ≤ n ∧ n ≤ 57 then n - 48
  else if 97 ≤ n ∧ n ≤ 102 then n - 87
  else if 65 ≤ n ∧ n ≤ 70 then n - 55
  else 0

def hexDigitVal (c : Char) : ℕ := hexDigitValN c.toNat

def isHexDigitLowerN (n : ℕ) : Bool :=
  (48 ≤ n ∧ n ≤ 57) ∨ (97 ≤ n ∧ n ≤ 102)

def isHexDigitLower (c : Char) : Bool := isHexDigitLowerN c.toNat

/- Big-endian numeric value of a hex digit string. -/
def hexValFold (a : ℕ) (l : List Char) : ℕ :=
  l.foldl (fun acc c => 16 * acc + hexDigitVal c) a

/- Numeric value of a 0x-prefixed address string, read as a big-endian
   unsigned integer. -/
def hexToNat (s : String) : ℕ := hexValFold 0 (s.data.drop 2)

/- Well-formed all-lowercase address literal: 0x followed by 40 lowercase
   hex digits. -/
def isLowerAddr (s : String) : Bool :=
  match s.data with
  | c0 :: c1 :: rest =>
    c0 = '0' && c1 = 'x' && rest.length = 40 && rest.all isHexDigitLower
  | _ => false

/- Token as returned by getToken (src/index.ts, lines 113-140): the three
   multicall results are put into the object with no status check, so a
   failed read leaves the corresponding field undefined (`none`). -/
structure TokenJS where
  address : String
  name : Option String
  symbol : Option String
  decimals : Option ℕ
deriving DecidableEq, Repr

/- src/index.ts getToken: assembles the token object from the three batched
   call results (name, symbol, decimals). The code reads `.result` of each
   entry without consulting `.status`, so the embedding takes the three
   results (none = failed/undefined) and always returns an object. -/
def getToken (tokenAddress : String) (nameRes symbolRes : Option String)
    (decimalsRes : Option ℕ) : TokenJS :=
  { address := tokenAddress
    name := nameRes
    symbol := symbolRes
    decimals := decimalsRes }

/- src/index.ts orderTokens: `token.address > wrappedToken.address`
   is JS string comparison on the raw (not lowercased) address strings. -/
def orderTokens (token wrappedToken : TokenJS) : TokenJS × TokenJS :=
  if jsGtStr token.address wrappedToken.address
  then (wrappedToken, token)
  else (token, wrappedToken)

/- src/index.ts FEE_TIERS = [FeeAmount.LOWEST, LOW, MEDIUM, HIGH]. -/
def FEE_TIERS : List ℕ := [100, 500, 3000, 10000]

/- uniswap v3-sdk ADDRESS_ZERO sentinel, compared against the decoded
   getPool result string. -/
def ADDRESS_ZERO : String := "0x0000000000000000000000000000000000000000"

structure PoolAddrFee where
  address : String
  fee : ℕ
deriving DecidableEq, Repr

/- src/index.ts poolAddresses (lines 166-191): one getPool response per fee
   tier, in FEE_TIERS order; the reduce keeps an entry exactly when the call
   succeeded (`none` models a failed call, whose result is undefined) and the
   returned address is not the zero sentinel, pairing it with FEE_TIERS[index]. -/
def poolAddresses (responses : List (Option String)) : List PoolAddrFee :=
  (FEE_TIERS.zip responses).foldl
    (fun acc fr =>
      match fr.2 with
      | some a => if a ≠ ADDRESS_ZERO then acc ++ [⟨a, fr.1⟩] else acc
      | none => acc)
    []

/- Pool after the reserve stage (src/index.ts poolsReserves, lines 202-239).
   Raw reserves keep the possibly-undefined multicall results; normalized
   reserves are Number(raw) / 10 ** decimals, NaN (`none`) when the read
   failed. -/
structure Pool where
  address : String
  fee : ℕ
  wrappedReservesRaw : Option ℕ
  tokenReservesRaw : Option ℕ
  wrappedReserves : JSNum
  tokenReserves : JSNum

/- One entry of the reserve stage: the code destructures a chunk of two
   balanceOf results [wrapped, target] and copies their `.result` fields
   without a status check. -/
def reserveEntry (wrappedDecimals tokenDecimals : ℕ) (p : PoolAddrFee)
    (chunk : List (Option ℕ)) : Pool :=
  let w := (chunk.get? 0).getD none
  let t := (chunk.get? 1).getD none
  { address := p.address
    fee := p.fee
    wrappedReservesRaw := w
    tokenReservesRaw := t
    wrappedReserves := w.map (fun n => (n : ℚ) / 10 ^ wrappedDecimals)
    tokenReserves := t.map (fun n => (n : ℚ) / 10 ^ tokenDecimals) }

/- src/index.ts poolsReserves: chunk the 2N balanceOf results in pairs and
   build one Pool per input pool, pools[index] paired with chunk index. -/
def poolsReserves (wrappedDecimals tokenDecimals : ℕ)
    (pools : List PoolAddrFee) (results : List (Option ℕ)) : List Pool :=
  ((chunkArray results 2).zip pools).map
    (fun cp => reserveEntry wrappedDecimals tokenDecimals cp.2 cp.1)

/- src/index.ts fetchNativePrice (lines 90-98). The asset id only depends on
   the chain id (mainnet 1 / sepolia 11155111 map to ethereum, anything else
   to binancecoin). -/
def nativeAssetId (chainId : ℕ) : String :=
  if chainId = 1 ∨ chainId = 11155111 then "ethereum" else "binancecoin"

/- Outcome of the HTTP GET as far as the code can observe it: the fetch
   promise rejects (network error), the body fails to parse as JSON, or a
   JSON object arrives with some status code. Each entry of the object maps
   an asset-id key to its `usd` field (`none` when the usd field is absent). -/
inductive FetchResult where
  | netError
  | badJson (status : ℕ)
  | json (status : ℕ) (entries : List (String × Option ℚ))

/- The code awaits fetch, awaits res.json() and returns data[id].usd.
   It never reads res.status / res.ok. A missing id key makes the property
   access on undefined throw (TypeError); a present id key with a missing
   usd field returns undefined — a value, not an error. -/
def fetchNativePrice (chainId : ℕ) (r : FetchResult) : Except String JSNum :=
  let id := nativeAssetId chainId
  match r with
  | .netError => .error "FetchError"
  | .badJson _ => .error "SyntaxError"
  | .json _ entries =>
    match entries.lookup id with
    | none => .error "TypeError"
    | some usd => .ok usd

/- Number of decimal digits of n (0 for n = 0); fuel-based so that the
   kernel can evaluate it on large literals. -/
def digitsLenAux : ℕ → ℕ → ℕ
  | 0, _ => 0
  | f + 1, n => if n = 0 then 0 else digitsLenAux f (n / 10) + 1

def digitsLen (n : ℕ) : ℕ := digitsLenAux (n + 1) n

/- Decide whether n / d ≥ 10 ^ c for positive n, d and integer c. -/
def qGe10pow (n d : ℕ) : ℤ → Bool
  | .ofNat k => d * 10 ^ k ≤ n
  | .negSucc k => d ≤ n * 10 ^ (k + 1)

/- Decimal exponent of the positive rational n / d: the unique e with
   10 ^ (e - 1) ≤ n / d < 10 ^ e. -/
def qExp (n d : ℕ) : ℤ :=
  let c : ℤ := (digitsLen n : ℤ) - (digitsLen d : ℤ)
  if qGe10pow n d c then c + 1 else c

/- Round the positive rational n / d to the nearest integer, halves up
   (Decimal.js ROUND_HALF_UP): floor(n/d + 1/2). -/
def roundHalfUp (n d : ℕ) : ℕ := (2 * n + d) / (2 * d)

/- Round n / d to `sig` significant digits: the result is m / 10 ^ t. -/
def sigScaled (sig n d : ℕ) : ℕ × ℤ :=
  let t : ℤ := (sig : ℤ) - qExp n d
  match t with
  | .ofNat k => (roundHalfUp (n * 10 ^ k) d, t)
  | .negSucc k => (roundHalfUp n (d * 10 ^ (k + 1)), t)

/- Drop trailing zeros of the fractional part (Decimal.js does not keep
   trailing zeros of a significant-digit rounding). -/
def trimZeros : ℕ → ℕ → ℕ × ℕ
  | m, 0 => (m, 0)
  | m, t + 1 => if m % 10 = 0 then trimZeros (m / 10) t else (m, t + 1)

def padLeftZeros (k : ℕ) (l : List Char) : List Char :=
  List.replicate (k - l.length) '0' ++ l

/- Plain decimal rendering of m / 10 ^ t (t ≥ 0), no exponent form, matching
   Decimal.toFormat with an empty group separator. -/
def fmtScaled (m t : ℕ) : String :=
  if t = 0 then Nat.repr m
  else String.mk ((Nat.repr (m / 10 ^ t)).data ++
    '.' :: padLeftZeros t (Nat.repr (m % 10 ^ t)).data)

/- toSignificant of the sdk-core Fraction on the unreduced fraction n / d:
   round to `sig` significant digits half-up and print as a plain decimal
   string. The fraction is never negative in this code (it comes from
   sqrtPriceX96^2); n = 0 prints as "0" like Decimal does. -/
def toSignificantStr (sig n d : ℕ) : String :=
  if n = 0 then "0"
  else
    match sigScaled sig n d with
    | (m, .ofNat t) =>
      match trimZeros m t with
      | (m2, t2) => fmtScaled m2 t2
    | (m, .negSucc k) => Nat.repr (m * 10 ^ (k + 1))

/- Value of a decimal numeral string (digits with at most one dot), the
   shape toSignificant produces; on such strings JS parseFloat returns
   exactly this value up to binary-float rounding. -/
def splitDot : List Char → List Char × List Char
  | [] => ([], [])
  | c :: cs =>
    if c = '.' then ([], cs)
    else
      match splitDot cs with
      | (a, b) => (c :: a, b)

def digitsToNat (l : List Char) : ℕ :=
  l.foldl (fun a c => 10 * a + (c.toNat - 48)) 0

def parseFloatQ (s : String) : ℚ :=
  match splitDot s.data with
  | (ip, fp) => (digitsToNat ip : ℚ) + (digitsToNat fp : ℚ) / 10 ^ fp.length

/- Address and decimals of a token as handed to the sdk V3Token constructor
   in poolPricing (src/index.ts lines 281-282). -/
structure TokenMeta where
  address : String
  decimals : ℕ
deriving DecidableEq, Repr

/- One decoded multicall result of the pricing stage: a failed call
   (undefined), a bigint (liquidity), or the slot0 tuple, of which the code
   uses fields [0] (sqrtPriceX96) and [1] (tick). -/
inductive CallVal where
  | undef
  | big (n : ℕ)
  | tuple (sqrtPriceX96 : ℕ) (tick : ℤ)
deriving DecidableEq

/- Pool record after the pricing stage; price is the toSignificant(6)
   decimal string, priceUSD and tvl are JS numbers. -/
structure PricedPool where
  address : String
  fee : ℕ
  wrappedReservesRaw : Option ℕ
  tokenReservesRaw : Option ℕ
  wrappedReserves : JSNum
  tokenReserves : JSNum
  liquidity : Option ℕ
  price : String
  priceUSD : JSNum
  tvl : JSNum

/- Modelled from the spec: the external concentrated-liquidity math library
   (V3Pool / V3Token of the uniswap sdk, not part of this repository).
   The spec fixes its ordering convention — "lower address = token0" — so the
   pool object sorts the two tokens by numeric address (the sdk compares
   lowercased address strings, which is the same order for well-formed
   addresses) and rejects equal addresses. Its token0Price is the amount of
   token1 per one token0 implied by sqrtPriceX96: as an unreduced fraction,
   sqrtPriceX96^2 * 10^decimals0 over 2^192 * 10^decimals1. -/
def sortedPair (target wrapped : TokenMeta) : TokenMeta × TokenMeta :=
  if hexToNat target.address < hexToNat wrapped.address
  then (target, wrapped)
  else (wrapped, target)

def token0PriceFrac (decimals0 decimals1 sqrtPriceX96 : ℕ) : ℕ × ℕ :=
  (sqrtPriceX96 ^ 2 * 10 ^ decimals0, 2 ^ 192 * 10 ^ decimals1)

/- Modelled from the spec: the claimed price — "target-token amount per one
   wrapped-native unit implied by the pool's sqrtPriceX96 state" — as an
   unreduced fraction. The raw ratio sqrtPriceX96^2 / 2^192 is token1 per
   token0 of the sorted pair, so the target-per-wrapped amount is that ratio
   (decimal-adjusted) when the wrapped token is token0, and its reciprocal
   when the target token is token0. -/
def specTargetPerWrapped (target wrapped : TokenMeta) (sqrtPriceX96 : ℕ) :
    ℕ × ℕ :=
  if hexToNat target.address < hexToNat wrapped.address
  then (2 ^ 192 * 10 ^ wrapped.decimals, sqrtPriceX96 ^ 2 * 10 ^ target.decimals)
  else (sqrtPriceX96 ^ 2 * 10 ^ wrapped.decimals, 2 ^ 192 * 10 ^ target.decimals)

/- src/index.ts poolPricing, body of the reduce (lines 272-296) for one pool
   and its [liquidity, slot0] chunk:
   * pool.liquidity is set to liquidity.result with no status check;
   * slot0.result that is undefined or a bigint throws 'Slot0 type error';
   * the V3Pool object is constructed from (token, wrappedToken, fee,
     sqrtPriceX96, liquidity, tick); an undefined liquidity makes
     pool.liquidity.toString() throw (TypeError); the sdk constructor
     throws when both addresses coincide;
   * price = v3Pool.token0Price.toSignificant(6),
     priceUSD = parseFloat(price) * nativePrice,
     tvl = priceUSD * pool.tokenReserves + nativePrice * pool.wrappedReserves. -/
def pricedOf (token wrappedToken : TokenMeta) (nativePrice : JSNum)
    (pool : Pool) (sqrtPriceX96 liq : ℕ) : PricedPool :=
  let st := sortedPair token wrappedToken
  let f := token0PriceFrac st.1.decimals st.2.decimals sqrtPriceX96
  let tokenPerWrapped := toSignificantStr 6 f.1 f.2
  let priceUSD := jmul (some (parseFloatQ tokenPerWrapped)) nativePrice
  { address := pool.address
    fee := pool.fee
    wrappedReservesRaw := pool.wrappedReservesRaw
    tokenReservesRaw := pool.tokenReservesRaw
    wrappedReserves := pool.wrappedReserves
    tokenReserves := pool.tokenReserves
    liquidity := some liq
    price := tokenPerWrapped
    priceUSD := priceUSD
    tvl := jadd (jmul priceUSD pool.tokenReserves)
      (jmul nativePrice pool.wrappedReserves) }

def pricePool (token wrappedToken : TokenMeta) (nativePrice : JSNum)
    (pool : Pool) (chunk : List CallVal) : Except String PricedPool :=
  let liqRes := (chunk.get? 0).getD CallVal.undef
  let s0Res := (chunk.get? 1).getD CallVal.undef
  let liq : Option ℕ := match liqRes with | .big n => some n | _ => none
  match s0Res with
  | .undef => .error "Slot0 type error"
  | .big _ => .error "Slot0 type error"
  | .tuple sqrtPriceX96 _tick =>
    match liq with
    | none => .error "TypeError"
    | some l =>
      if hexToNat token.address = hexToNat wrappedToken.address
      then .error "ADDRESSES"
      else .ok (pricedOf token wrappedToken nativePrice pool sqrtPriceX96 l)

/- The reduce of poolPricing over all (chunk, pool) pairs; a thrown error
   aborts the whole batch, as the JS exception does. -/
def poolPricingAux (token wrappedToken : TokenMeta) (nativePrice : JSNum) :
    List (List CallVal × Pool) → Except String (List PricedPool)
  | [] => .ok []
  | cp :: rest =>
    match pricePool token wrappedToken nativePrice cp.2 cp.1 with
    | .error e => .error e
    | .ok pp =>
      match poolPricingAux token wrappedToken nativePrice rest with
      | .error e => .error e
      | .ok tail => .ok (pp :: tail)

/- src/index.ts poolPricing (lines 251-302): chunk the 2N multicall results
   in [liquidity, slot0] pairs, pools[index] with chunk index. -/
def poolPricing (token wrappedToken : TokenMeta) (pools : List Pool)
    (results : List CallVal) (nativePrice : JSNum) :
    Except String (List PricedPool) :=
  poolPricingAux token wrappedToken nativePrice
    ((chunkArray results 2).zip pools)

/- The pricing stage as run per scan: the native USD price is fetched once
   (line 269) and that single value is used for every pool of the batch. -/
def pricingStage (chainId : ℕ) (feed : FetchResult)
    (token wrappedToken : TokenMeta) (pools : List Pool)
    (results : List CallVal) : Except String (List PricedPool) :=
  match fetchNativePrice chainId feed with
  | .error e => .error e
  | .ok nativePrice => poolPricing token wrappedToken pools results nativePrice

/- Properties of chunkArray used by the claims. -/

theorem chunkArray_flatten {α : Type} :
    ∀ (arr : List α) (s : ℕ), 0 < s → (chunkArray arr s).flatten = arr
  | [], _, _ => by simp [chunkArray_nil]
  | _ :: _, 0, h => absurd h (lt_irrefl 0)
  | a :: as, s + 1, _ => by
    rw [chunkArray_cons, List.flatten_cons,
      chunkArray_flatten (as.drop s) (s + 1) (Nat.succ_pos s),
      List.take_succ_cons, List.cons_append, List.take_append_drop]
termination_by arr _ _ => arr.length
decreasing_by simp only [List.length_drop, List.length_cons]; omega

theorem chunkArray_chunks {α : Type} :
    ∀ (arr : List α) (s : ℕ), 0 < s →
      ∀ c ∈ chunkArray arr s, c ≠ [] ∧ c.length ≤ s
  | [], _, _ => by simp [chunkArray_nil]
  | _ :: _, 0, h => absurd h (lt_irrefl 0)
  | a :: as, s + 1, _ => by
    rw [chunkArray_cons]
    intro c hc
    rcases List.mem_cons.mp hc with h | h
    · subst h
      refine ⟨by simp [List.take_succ_cons], ?_⟩
      simp
    · exact chunkArray_chunks (as.drop s) (s + 1) (Nat.succ_pos s) c h
termination_by arr _ _ => arr.length
decreasing_by simp only [List.length_drop, List.length_cons]; omega

theorem chunkArray_full {α : Type} :
    ∀ (arr : List α) (s : ℕ), 0 < s →
      ∀ i, i + 1 < (chunkArray arr s).length →
        ∃ c, (chunkArray arr s).get? i = some c ∧ c.length = s
  | [], _, _ => by simp [chunkArray_nil]
  | _ :: _, 0, h => absurd h (lt_irrefl 0)
  | a :: as, s + 1, _ => by
    rw [chunkArray_cons]
    intro i hi
    cases i with
    | zero =>
      refine ⟨(a :: as).take (s + 1), rfl, ?_⟩
      have hne : as.drop s ≠ [] := by
        intro he
        rw [he, chunkArray_nil] at hi
        simp at hi
      have : s < as.length := by
        by_contra hle
        exact hne (List.drop_eq_nil_of_le (by omega))
      simp only [List.length_take, List.length_cons]
      omega
    | succ i =>
      simp only [List.length_cons, Nat.add_lt_add_iff_right] at hi
      exact chunkArray_full (as.drop s) (s + 1) (Nat.succ_pos s) i hi
termination_by arr _ _ => arr.length
decreasing_by simp only [List.length_drop, List.length_cons]; omega

/- C10: For every array and every chunk size greater than 0, chunkArray
   terminates (it is a total function of this development) and the
   concatenation of its output chunks equals the input array, every chunk is
   non-empty with length at most the given size, and every chunk except
   possibly the last has length exactly the given size. -/
theorem chunkArray_spec {α : Type} (arr : List α) (s : ℕ) (hs : 0 < s) :
    (chunkArray arr s).flatten = arr ∧
    (∀ c ∈ chunkArray arr s, c ≠ [] ∧ c.length ≤ s) ∧
    (∀ i, i + 1 < (chunkArray arr s).length →
      ∃ c, (chunkArray arr s).get? i = some c ∧ c.length = s) :=
  ⟨chunkArray_flatten arr s hs, chunkArray_chunks arr s hs,
    chunkArray_full arr s hs⟩

/- Witness for C10 at a concrete input. -/
theorem chunkArray_spec_witness :
    (chunkArray [1, 2, 3] 2).flatten = [1, 2, 3] :=
  (chunkArray_spec [1, 2, 3] 2 (by decide)).1

/- Chunk i of a pairwise (size 2) chunking holds exactly the batch results
   2i and 2i+1. -/
theorem chunkArray_two_get {α : Type} :
    ∀ (i : ℕ) (l : List α), 2 * i + 1 < l.length →
      ∃ a b, l.get? (2 * i) = some a ∧ l.get? (2 * i + 1) = some b ∧
        (chunkArray l 2).get? i = some [a, b]
  | 0, [], h => by simp at h
  | 0, [a], h => by simp at h
  | 0, a :: b :: rest, _ => by
    refine ⟨a, b, rfl, rfl, ?_⟩
    rw [chunkArray_cons a (b :: rest) 1]
    simp
  | i + 1, [], h => by simp at h
  | i + 1, [a], h => by simp at h
  | i + 1, a :: b :: rest, h => by
    have hlen : 2 * i + 1 < rest.length := by
      simp only [List.length_cons] at h; omega
    obtain ⟨x, y, hx, hy, hc⟩ := chunkArray_two_get i rest hlen
    refine ⟨x, y, ?_, ?_, ?_⟩
    · rw [show 2 * (i + 1) = 2 * i + 1 + 1 by omega, List.get?_cons_succ,
        List.get?_cons_succ]
      exact hx
    · rw [show 2 * (i + 1) + 1 = 2 * i + 1 + 1 + 1 by omega,
        List.get?_cons_succ, List.get?_cons_succ]
      exact hy
    · rw [chunkArray_cons a (b :: rest) 1]
      simpa using hc

theorem chunkArray_two_length {α : Type} :
    ∀ l : List α, (chunkArray l 2).length = (l.length + 1) / 2
  | [] => by simp [chunkArray_nil]
  | [a] => by rw [chunkArray_cons a [] 1]; simp [chunkArray_nil]
  | a :: b :: rest => by
    rw [chunkArray_cons a (b :: rest) 1]
    simp only [List.drop_succ_cons, List.drop_zero, List.length_cons]
    rw [chunkArray_two_length rest]
    omega

theorem poolsReserves_length (wd td : ℕ) (pools : List PoolAddrFee)
    (rs : List (Option ℕ)) (h : rs.length = 2 * pools.length) :
    (poolsReserves wd td pools rs).length = pools.length := by
  simp only [poolsReserves, List.length_map, List.length_zip,
    chunkArray_two_length, h]
  omega

theorem poolsReserves_get (wd td : ℕ) (pools : List PoolAddrFee)
    (rs : List (Option ℕ)) (i : ℕ) (p : PoolAddrFee)
    (h : rs.length = 2 * pools.length) (hp : pools.get? i = some p) :
    ∃ rvw rvt, rs.get? (2 * i) = some rvw ∧ rs.get? (2 * i + 1) = some rvt ∧
      (poolsReserves wd td pools rs).get? i =
        some (reserveEntry wd td p [rvw, rvt]) := by
  have hi : i < pools.length := by
    rcases List.get?_eq_some.mp hp with ⟨hlt, _⟩
    exact hlt
  obtain ⟨x, y, hx, hy, hc⟩ := chunkArray_two_get i rs (by omega)
  refine ⟨x, y, hx, hy, ?_⟩
  simp only [poolsReserves, List.get?_map]
  rw [(List.get?_zip_eq_some _ _ ([x, y], p) i).mpr ⟨hc, hp⟩]
  rfl

/-- C5: For every input pool list, poolsReserves returns a list of the same
length in which entry i carries the address and fee of input pool i and its
reserves come from batch result entries 2i (wrapped-native balance) and
2i + 1 (target-token balance); the index correspondence holds for every
input length, and the empty list (length 0) yields the empty output. -/
theorem poolsReserves_index_correspondence (wd td : ℕ)
    (pools : List PoolAddrFee) (rs : List (Option ℕ))
    (h : rs.length = 2 * pools.length) :
    (poolsReserves wd td pools rs).length = pools.length ∧
    ∀ i p, pools.get? i = some p →
      ∃ rvw rvt, rs.get? (2 * i) = some rvw ∧ rs.get? (2 * i + 1) = some rvt ∧
        ∃ e, (poolsReserves wd td pools rs).get? i = some e ∧
          e.address = p.address ∧ e.fee = p.fee ∧
          e.wrappedReservesRaw = rvw ∧ e.tokenReservesRaw = rvt := by
  refine ⟨poolsReserves_length wd td pools rs h, ?_⟩
  intro i p hp
  obtain ⟨rvw, rvt, hw, ht, he⟩ := poolsReserves_get wd td pools rs i p h hp
  exact ⟨rvw, rvt, hw, ht, reserveEntry wd td p [rvw, rvt], he,
    rfl, rfl, rfl, rfl⟩

/-- Witness for C5 at a concrete input: one pool and two batch results. -/
theorem poolsReserves_index_correspondence_witness :
    ∃ rvw rvt, ([some 5, some 7] : List (Option ℕ)).get? (2 * 0) = some rvw ∧
      ([some 5, some 7] : List (Option ℕ)).get? (2 * 0 + 1) = some rvt ∧
      ∃ e, (poolsReserves 18 6 [⟨"0xp", 3000⟩] [some 5, some 7]).get? 0 =
        some e ∧ e.address = (⟨"0xp", 3000⟩ : PoolAddrFee).address ∧
        e.fee = (⟨"0xp", 3000⟩ : PoolAddrFee).fee ∧
        e.wrappedReservesRaw = rvw ∧ e.tokenReservesRaw = rvt :=
  (poolsReserves_index_correspondence 18 6 [⟨"0xp", 3000⟩] [some 5, some 7]
    rfl).2 0 ⟨"0xp", 3000⟩ rfl

/-- C6: For every pool whose two balance reads succeed with raw reserves RW
(wrapped) and RT (target) and respective token decimals wd and td, the
normalized reserves produced by poolsReserves are exactly RW / 10 ^ wd and
RT / 10 ^ td in the real-valued model of JS floats; exact equality implies
the claimed 1e-9 relative-error tolerance. -/
theorem poolsReserves_normalization (wd td : ℕ) (pools : List PoolAddrFee)
    (rs : List (Option ℕ)) (i : ℕ) (p : PoolAddrFee) (RW RT : ℕ)
    (h : rs.length = 2 * pools.length) (hp : pools.get? i = some p)
    (hw : rs.get? (2 * i) = some (some RW))
    (ht : rs.get? (2 * i + 1) = some (some RT)) :
    ∃ e, (poolsReserves wd td pools rs).get? i = some e ∧
      e.wrappedReserves = some ((RW : ℚ) / 10 ^ wd) ∧
      e.tokenReserves = some ((RT : ℚ) / 10 ^ td) := by
  obtain ⟨rvw, rvt, hw', ht', he⟩ := poolsReserves_get wd td pools rs i p h hp
  rw [hw] at hw'
  rw [ht] at ht'
  obtain rfl : rvw = some RW := (Option.some_inj.mp hw').symm
  obtain rfl : rvt = some RT := (Option.some_inj.mp ht').symm
  exact ⟨reserveEntry wd td p [some RW, some RT], he, rfl, rfl⟩

/-- Witness for C6 at a concrete input. -/
theorem poolsReserves_normalization_witness :
    ∃ e, (poolsReserves 18 6 [⟨"0xq", 500⟩] [some 5, some 7]).get? 0 =
      some e ∧ e.wrappedReserves = some ((5 : ℚ) / 10 ^ 18) ∧
      e.tokenReserves = some ((7 : ℚ) / 10 ^ 6) :=
  poolsReserves_normalization 18 6 [⟨"0xq", 500⟩] [some 5, some 7] 0
    ⟨"0xq", 500⟩ 5 7 rfl rfl rfl rfl

/-- C7 counterexample: the claim says a failed balanceOf read makes "the
pool's entry fail", but poolsReserves never consults the call status: with
the wrapped-native read failed (result undefined) the pool's entry is still
produced — the output has length 1 and its entry carries the undefined raw
reserve and a NaN normalized reserve. -/
theorem poolsReserves_failed_read_cex :
    (poolsReserves 18 6 [⟨"0xp7", 3000⟩] [none, some 5]).length = 1 ∧
    ((poolsReserves 18 6 [⟨"0xp7", 3000⟩] [none, some 5]).get? 0).map
      (fun e => e.wrappedReservesRaw) = some none ∧
    ((poolsReserves 18 6 [⟨"0xp7", 3000⟩] [none, some 5]).get? 0).map
      (fun e => e.wrappedReserves) = some none :=
  ⟨rfl, rfl, rfl⟩

/-- C7 amended: a failed balanceOf read does not fail the pool's entry;
instead the entry records the failure explicitly — the raw reserve is
undefined (none) and the normalized reserve is NaN (none) — and is therefore
never indistinguishable from a legitimately zero reserve (raw some 0,
normalized some 0). -/
theorem poolsReserves_failed_read_propagation (wd td : ℕ)
    (pools : List PoolAddrFee) (rs : List (Option ℕ)) (i : ℕ)
    (p : PoolAddrFee) (h : rs.length = 2 * pools.length)
    (hp : pools.get? i = some p) :
    (rs.get? (2 * i) = some none →
      ∃ e, (poolsReserves wd td pools rs).get? i = some e ∧
        e.wrappedReservesRaw = none ∧ e.wrappedReserves = none ∧
        e.wrappedReservesRaw ≠ some 0 ∧ e.wrappedReserves ≠ some 0) ∧
    (rs.get? (2 * i + 1) = some none →
      ∃ e, (poolsReserves wd td pools rs).get? i = some e ∧
        e.tokenReservesRaw = none ∧ e.tokenReserves = none ∧
        e.tokenReservesRaw ≠ some 0 ∧ e.tokenReserves ≠ some 0) := by
  obtain ⟨rvw, rvt, hw', ht', he⟩ := poolsReserves_get wd td pools rs i p h hp
  constructor
  · intro hw
    rw [hw] at hw'
    obtain rfl : rvw = none := (Option.some_inj.mp hw').symm
    exact ⟨reserveEntry wd td p [none, rvt], he, rfl, rfl,
      by simp [reserveEntry], by simp [reserveEntry]⟩
  · intro ht
    rw [ht] at ht'
    obtain rfl : rvt = none := (Option.some_inj.mp ht').symm
    exact ⟨reserveEntry wd td p [rvw, none], he, rfl, rfl,
      by simp [reserveEntry], by simp [reserveEntry]⟩

/-- Witness for the amended C7 at a concrete input with a failed wrapped
read. -/
theorem poolsReserves_failed_read_propagation_witness :
    ∃ e, (poolsReserves 18 6 [⟨"0xp7w", 3000⟩] [none, some 5]).get? 0 =
      some e ∧ e.wrappedReservesRaw = none ∧ e.wrappedReserves = none ∧
      e.wrappedReservesRaw ≠ some 0 ∧ e.wrappedReserves ≠ some 0 :=
  (poolsReserves_failed_read_propagation 18 6 [⟨"0xp7w", 3000⟩]
    [none, some 5] 0 ⟨"0xp7w", 3000⟩ rfl rfl).1 rfl

/- The selection the poolAddresses reduce applies to one (fee, response)
   pair: keep a successful non-zero address with its tier. -/
def selPool (fr : ℕ × Option String) : Option PoolAddrFee :=
  match fr.2 with
  | some a => if a ≠ ADDRESS_ZERO then some ⟨a, fr.1⟩ else none
  | none => none

theorem poolAddresses_foldl_eq :
    ∀ (l : List (ℕ × Option String)) (acc : List PoolAddrFee),
      l.foldl
        (fun acc fr =>
          match fr.2 with
          | some a => if a ≠ ADDRESS_ZERO then acc ++ [⟨a, fr.1⟩] else acc
          | none => acc)
        acc = acc ++ l.filterMap selPool
  | [], acc => by simp
  | (f, r) :: t, acc => by
    cases r with
    | none =>
      simp only [List.foldl_cons, List.filterMap_cons]
      rw [poolAddresses_foldl_eq t acc]
      rfl
    | some a =>
      simp only [List.foldl_cons, List.filterMap_cons, selPool]
      by_cases ha : a ≠ ADDRESS_ZERO
      · rw [if_pos ha, if_pos ha,
          poolAddresses_foldl_eq t (acc ++ [PoolAddrFee.mk a f])]
        simp
      · rw [if_neg ha, if_neg ha, poolAddresses_foldl_eq t acc]

theorem poolAddresses_eq_filterMap (rs : List (Option String)) :
    poolAddresses rs = (FEE_TIERS.zip rs).filterMap selPool := by
  rw [poolAddresses, poolAddresses_foldl_eq]
  rfl

theorem selPool_fees_sublist :
    ∀ l : List (ℕ × Option String),
      List.Sublist ((l.filterMap selPool).map PoolAddrFee.fee)
        (l.map Prod.fst)
  | [] => List.Sublist.refl []
  | (f, r) :: t => by
    cases r with
    | none =>
      simp only [List.filterMap_cons, List.map_cons]
      exact (selPool_fees_sublist t).cons f
    | some a =>
      simp only [List.filterMap_cons, selPool, List.map_cons]
      by_cases ha : a ≠ ADDRESS_ZERO
      · rw [if_pos ha]
        exact (selPool_fees_sublist t).cons₂ f
      · rw [if_neg ha]
        exact (selPool_fees_sublist t).cons f

theorem zip_map_fst_sublist {α β : Type} :
    ∀ (l1 : List α) (l2 : List β),
      List.Sublist ((l1.zip l2).map Prod.fst) l1
  | [], _ => by simp
  | _ :: _, [] => by simp
  | a :: t1, b :: t2 => by
    simp only [List.zip_cons_cons, List.map_cons]
    exact (zip_map_fst_sublist t1 t2).cons₂ a

/-- C4: For every multicall response list over the four fee tiers,
poolAddresses returns exactly the entries whose call succeeded with a
non-zero-sentinel address, each paired with the fee tier that produced it
(the membership characterization, which only looks at that tier's own
response, so one tier's failure never suppresses the others), listed in
fee-tier enumeration order (the fee projection is a sublist of FEE_TIERS);
hence the output never contains the zero sentinel and has at most 4
entries. -/
theorem poolAddresses_spec (rs : List (Option String)) (_h : rs.length = 4) :
    (∀ p ∈ poolAddresses rs, p.address ≠ ADDRESS_ZERO) ∧
    (poolAddresses rs).length ≤ 4 ∧
    (∀ a f, (⟨a, f⟩ : PoolAddrFee) ∈ poolAddresses rs ↔
      ∃ i, i < 4 ∧ FEE_TIERS.get? i = some f ∧ rs.get? i = some (some a) ∧
        a ≠ ADDRESS_ZERO) ∧
    List.Sublist ((poolAddresses rs).map PoolAddrFee.fee) FEE_TIERS := by
  have hsub : List.Sublist ((poolAddresses rs).map PoolAddrFee.fee)
      FEE_TIERS := by
    rw [poolAddresses_eq_filterMap]
    exact (selPool_fees_sublist _).trans (zip_map_fst_sublist _ _)
  have hlen : (poolAddresses rs).length ≤ 4 := by
    have hl := hsub.length_le
    simpa using hl
  refine ⟨?_, hlen, ?_, hsub⟩
  · intro p hp
    rw [poolAddresses_eq_filterMap] at hp
    obtain ⟨x, _, hsel⟩ := List.mem_filterMap.mp hp
    obtain ⟨fee, r⟩ := x
    cases r with
    | none => simp [selPool] at hsel
    | some addr =>
      simp only [selPool] at hsel
      by_cases ha : addr ≠ ADDRESS_ZERO
      · rw [if_pos ha] at hsel
        have hpe := Option.some_inj.mp hsel
        rw [← hpe]
        exact ha
      · rw [if_neg ha] at hsel
        simp at hsel
  · intro a f
    rw [poolAddresses_eq_filterMap]
    constructor
    · intro hm
      obtain ⟨x, hx, hsel⟩ := List.mem_filterMap.mp hm
      obtain ⟨fee, r⟩ := x
      cases r with
      | none => simp [selPool] at hsel
      | some addr =>
        simp only [selPool] at hsel
        by_cases ha : addr ≠ ADDRESS_ZERO
        · rw [if_pos ha] at hsel
          have hpe := Option.some_inj.mp hsel
          have haa : addr = a := congrArg PoolAddrFee.address hpe
          have hff : fee = f := congrArg PoolAddrFee.fee hpe
          subst haa
          subst hff
          obtain ⟨i, hi⟩ := List.mem_iff_get?.mp hx
          have hz := (List.get?_zip_eq_some FEE_TIERS rs (fee, some addr)
            i).mp hi
          refine ⟨i, ?_, hz.1, hz.2, ha⟩
          have hb := (List.get?_eq_some.mp hz.1).1
          simpa [FEE_TIERS] using hb
        · rw [if_neg ha] at hsel
          simp at hsel
    · rintro ⟨i, _, hf, hr, ha⟩
      apply List.mem_filterMap.mpr
      refine ⟨(f, some a), ?_, ?_⟩
      · exact List.get?_mem
          ((List.get?_zip_eq_some FEE_TIERS rs (f, some a) i).mpr ⟨hf, hr⟩)
      · simp [selPool, ha]

/-- Witness for C4 at a concrete response batch: tier 2 failed, tier 3
returned the zero sentinel, tiers 1 and 4 returned pools. -/
theorem poolAddresses_spec_witness :
    (poolAddresses [some "0xdead", none, some ADDRESS_ZERO, some "0xbeef"]
      ).length ≤ 4 :=
  (poolAddresses_spec [some "0xdead", none, some ADDRESS_ZERO, some "0xbeef"]
    rfl).2.1

/- Order-theoretic facts about the JS string comparison. -/

theorem strLtB_asymm : ∀ l1 l2 : List Char,
    strLtB l1 l2 = true → strLtB l2 l1 = false
  | [], [], h => by simp [strLtB] at h
  | _ :: _, [], h => by simp [strLtB] at h
  | [], _ :: _, _ => by simp [strLtB]
  | a :: as, b :: bs, h => by
    simp only [strLtB] at h ⊢
    by_cases h1 : a.toNat < b.toNat
    · rw [if_neg (by omega), if_pos h1]
    · rw [if_neg h1] at h
      by_cases h2 : b.toNat < a.toNat
      · rw [if_pos h2] at h
        exact absurd h (by simp)
      · rw [if_neg h2] at h
        rw [if_neg h2, if_neg h1]
        exact strLtB_asymm as bs h

theorem strLtB_total : ∀ l1 l2 : List Char,
    l1 ≠ l2 → strLtB l1 l2 = true ∨ strLtB l2 l1 = true
  | [], [], h => absurd rfl h
  | [], _ :: _, _ => Or.inl (by simp [strLtB])
  | _ :: _, [], _ => Or.inr (by simp [strLtB])
  | a :: as, b :: bs, h => by
    by_cases h1 : a.toNat < b.toNat
    · exact Or.inl (by simp [strLtB, h1])
    by_cases h2 : b.toNat < a.toNat
    · exact Or.inr (by simp [strLtB, h2])
    have hab : a = b := Char.ext (UInt32.ext (by
      simp only [Char.toNat] at h1 h2
      omega))
    have hne : as ≠ bs := by
      intro he
      exact h (by rw [hab, he])
    rcases strLtB_total as bs hne with ht | ht
    · exact Or.inl (by simp [strLtB, h1, h2, ht])
    · exact Or.inr (by
        simp only [strLtB, if_neg h2, if_neg h1]
        exact ht)

/- Value facts about hex strings. -/

theorem hexValFold_cons (a : ℕ) (c : Char) (l : List Char) :
    hexValFold a (c :: l) = hexValFold (16 * a + hexDigitVal c) l := rfl

theorem hexValFold_acc : ∀ (l : List Char) (a : ℕ),
    hexValFold a l = a * 16 ^ l.length + hexValFold 0 l
  | [], a => by simp [hexValFold]
  | c :: l, a => by
    rw [hexValFold_cons, hexValFold_acc l (16 * a + hexDigitVal c),
      hexValFold_cons 0 c l, hexValFold_acc l (16 * 0 + hexDigitVal c)]
    simp only [List.length_cons, pow_succ]
    ring

theorem hexDigitVal_le (c : Char) : hexDigitVal c ≤ 15 := by
  unfold hexDigitVal hexDigitValN
  repeat' split
  all_goals omega

theorem hexValFold_lt : ∀ l : List Char, hexValFold 0 l < 16 ^ l.length
  | [] => by simp [hexValFold]
  | c :: l => by
    rw [hexValFold_cons, hexValFold_acc l (16 * 0 + hexDigitVal c)]
    have h1 := hexDigitVal_le c
    have h2 := hexValFold_lt l
    have hk : 0 < 16 ^ l.length := pow_pos (by norm_num) _
    simp only [List.length_cons, pow_succ]
    nlinarith [h1, h2, hk]

theorem hexDigitVal_lt_of_lower (c d : Char) (hc : isHexDigitLower c = true)
    (hd : isHexDigitLower d = true) (h : c.toNat < d.toNat) :
    hexDigitVal c < hexDigitVal d := by
  unfold isHexDigitLower isHexDigitLowerN at hc hd
  simp only [decide_eq_true_eq] at hc hd
  unfold hexDigitVal hexDigitValN
  split_ifs <;> omega

/- Lexicographic order on equal-length lowercase-hex digit strings agrees
   with the order of their big-endian numeric values. -/
theorem strLtB_iff_hexVal : ∀ l1 l2 : List Char, l1.length = l2.length →
    (∀ c ∈ l1, isHexDigitLower c = true) →
    (∀ c ∈ l2, isHexDigitLower c = true) →
    (strLtB l1 l2 = true ↔ hexValFold 0 l1 < hexValFold 0 l2)
  | [], [], _, _, _ => by simp [strLtB, hexValFold]
  | [], _ :: _, h, _, _ => by simp at h
  | _ :: _, [], h, _, _ => by simp at h
  | a :: as, b :: bs, h, h1, h2 => by
    simp only [List.length_cons, Nat.add_right_cancel_iff] at h
    have ha := h1 a (by simp)
    have hb := h2 b (by simp)
    have has : ∀ c ∈ as, isHexDigitLower c = true :=
      fun c hc => h1 c (by simp [hc])
    have hbs : ∀ c ∈ bs, isHexDigitLower c = true :=
      fun c hc => h2 c (by simp [hc])
    have hva : hexValFold 0 (a :: as) =
        hexDigitVal a * 16 ^ as.length + hexValFold 0 as := by
      rw [hexValFold_cons, hexValFold_acc]
      ring_nf
    have hvb : hexValFold 0 (b :: bs) =
        hexDigitVal b * 16 ^ as.length + hexValFold 0 bs := by
      rw [hexValFold_cons, hexValFold_acc, h]
      ring_nf
    rw [hva, hvb]
    have hba := hexValFold_lt as
    have hbb := hexValFold_lt bs
    rw [← h] at hbb
    by_cases hlt : a.toNat < b.toNat
    · have hdv := hexDigitVal_lt_of_lower a b ha hb hlt
      have hmul : hexDigitVal a * 16 ^ as.length + 16 ^ as.length ≤
          hexDigitVal b * 16 ^ as.length := by
        have hm := Nat.mul_le_mul_right (16 ^ as.length)
          (Nat.succ_le_of_lt hdv)
        rw [Nat.succ_mul] at hm
        exact hm
      simp only [strLtB, if_pos hlt, true_iff]
      exact lt_of_lt_of_le
        (lt_of_lt_of_le (Nat.add_lt_add_left hba _) hmul)
        (Nat.le_add_right _ _)
    by_cases hgt : b.toNat < a.toNat
    · have hdv := hexDigitVal_lt_of_lower b a hb ha hgt
      have hmul : hexDigitVal b * 16 ^ as.length + 16 ^ as.length ≤
          hexDigitVal a * 16 ^ as.length := by
        have hm := Nat.mul_le_mul_right (16 ^ as.length)
          (Nat.succ_le_of_lt hdv)
        rw [Nat.succ_mul] at hm
        exact hm
      simp only [strLtB, if_neg hlt, if_pos hgt, Bool.false_eq_true,
        false_iff, not_lt]
      exact le_trans (le_trans (Nat.add_le_add_left (le_of_lt hbb) _) hmul)
        (Nat.le_add_right _ _)
    · have hdv : hexDigitVal a = hexDigitVal b := by
        unfold hexDigitVal
        have : a.toNat = b.toNat := by omega
        rw [this]
      simp only [strLtB, if_neg hlt, if_neg hgt, hdv,
        Nat.add_lt_add_iff_left]
      exact strLtB_iff_hexVal as bs h has hbs

theorem isLowerAddr_parts (s : String) (h : isLowerAddr s = true) :
    ∃ rest, s.data = '0' :: 'x' :: rest ∧ rest.length = 40 ∧
      ∀ c ∈ rest, isHexDigitLower c = true := by
  unfold isLowerAddr at h
  cases hd : s.data with
  | nil => rw [hd] at h; simp at h
  | cons c0 t0 =>
    cases t0 with
    | nil => rw [hd] at h; simp at h
    | cons c1 rest =>
      rw [hd] at h
      simp only [Bool.and_eq_true, decide_eq_true_eq, List.all_eq_true]
        at h
      obtain ⟨⟨⟨h0, h1⟩, hlen⟩, hall⟩ := h
      exact ⟨rest, by rw [h0, h1], hlen, hall⟩

/- For well-formed lowercase addresses, the JS string comparison agrees with
   the numeric big-endian order of the 20-byte values. -/
theorem strLtB_iff_hexToNat (a b : String) (ha : isLowerAddr a = true)
    (hb : isLowerAddr b = true) :
    (strLtB a.data b.data = true ↔ hexToNat a < hexToNat b) := by
  obtain ⟨ra, hda, hla, hha⟩ := isLowerAddr_parts a ha
  obtain ⟨rb, hdb, hlb, hhb⟩ := isLowerAddr_parts b hb
  unfold hexToNat
  rw [hda, hdb]
  have hred : strLtB ('0' :: 'x' :: ra) ('0' :: 'x' :: rb) = strLtB ra rb :=
    by simp [strLtB]
  rw [hred]
  simp only [List.drop_succ_cons, List.drop_zero]
  exact strLtB_iff_hexVal ra rb (by omega) hha hhb

/-- C2 counterexample: orderTokens compares the raw address strings with the
JS string order, which is case-sensitive; for a mixed-case pair the token in
position 0 is not the numerically smaller address. Here the wrapped token's
address 0xaB00...00 is numerically smaller than the target's 0xAF00...00
(0xAB < 0xAF), yet orderTokens puts the target first because the code unit
of A (65) is below that of a (97). -/
theorem orderTokens_mixed_case_cex :
    hexToNat "0xaB00000000000000000000000000000000000000" <
      hexToNat "0xAF00000000000000000000000000000000000000" ∧
    "0xAF00000000000000000000000000000000000000" ≠
      "0xaB00000000000000000000000000000000000000" ∧
    (orderTokens
      ⟨"0xAF00000000000000000000000000000000000000", none, none, none⟩
      ⟨"0xaB00000000000000000000000000000000000000", some "W", some "W",
        some 18⟩).1.address =
      "0xAF00000000000000000000000000000000000000" := by
  refine ⟨by decide, by decide, by decide⟩

/-- C2 amended: orderTokens is symmetric for any two tokens with distinct
address strings, and position 0 always holds the token whose address string
is smaller in the JS string order (lexicographic by UTF-16 code unit); when
both addresses are well-formed lowercase hex strings this coincides with the
numerically smaller 20-byte address being position 0. The operation is a
pure total function of this development (no I/O, no failure modes). -/
theorem orderTokens_ordering (A W : TokenJS) (hne : A.address ≠ W.address) :
    orderTokens A W = orderTokens W A ∧
    strLtB ((orderTokens A W).1.address).data
      ((orderTokens A W).2.address).data = true ∧
    (isLowerAddr A.address = true → isLowerAddr W.address = true →
      hexToNat ((orderTokens A W).1.address) <
        hexToNat ((orderTokens A W).2.address)) := by
  have hdne : A.address.data ≠ W.address.data := fun he => hne (String.ext he)
  rcases strLtB_total A.address.data W.address.data hdne with hlt | hlt
  · have hf : strLtB W.address.data A.address.data = false :=
      strLtB_asymm _ _ hlt
    have e1 : orderTokens A W = (A, W) := by
      unfold orderTokens jsGtStr
      rw [hf]
      simp
    have e2 : orderTokens W A = (A, W) := by
      unfold orderTokens jsGtStr
      rw [hlt]
      simp
    refine ⟨by rw [e1, e2], by rw [e1]; exact hlt, ?_⟩
    intro hA hW
    rw [e1]
    exact (strLtB_iff_hexToNat A.address W.address hA hW).mp hlt
  · have hf : strLtB A.address.data W.address.data = false :=
      strLtB_asymm _ _ hlt
    have e1 : orderTokens A W = (W, A) := by
      unfold orderTokens jsGtStr
      rw [hlt]
      simp
    have e2 : orderTokens W A = (W, A) := by
      unfold orderTokens jsGtStr
      rw [hf]
      simp
    refine ⟨by rw [e1, e2], by rw [e1]; exact hlt, ?_⟩
    intro hA hW
    rw [e1]
    exact (strLtB_iff_hexToNat W.address A.address hW hA).mp hlt

/-- Witness for the amended C2 at a concrete lowercase pair. -/
theorem orderTokens_ordering_witness :
    orderTokens
        ⟨"0xbb00000000000000000000000000000000000000", none, none, none⟩
        ⟨"0xaa00000000000000000000000000000000000000", some "W", some "W",
          some 18⟩ =
      orderTokens
        ⟨"0xaa00000000000000000000000000000000000000", some "W", some "W",
          some 18⟩
        ⟨"0xbb00000000000000000000000000000000000000", none, none, none⟩ :=
  (orderTokens_ordering
    ⟨"0xbb00000000000000000000000000000000000000", none, none, none⟩
    ⟨"0xaa00000000000000000000000000000000000000", some "W", some "W",
      some 18⟩ (by decide)).1

/-- C8 counterexample: fetchNativePrice never consults the HTTP status, so it
does not fail on a non-200 response: a status-500 response whose JSON body
carries the asset id with a usd field returns that value; and a status-200
body whose asset-id entry lacks the usd field returns undefined — a value,
not a failure. Both contradict the claim that the call fails exactly on
network error, non-200 status, or missing usd field (no OracleUnavailable
error exists in the code at all). -/
theorem fetchNativePrice_cex :
    fetchNativePrice 1 (.json 500 [("ethereum", some 5)]) = .ok (some 5) ∧
    fetchNativePrice 1 (.json 200 [("ethereum", none)]) = .ok none :=
  ⟨rfl, rfl⟩

/-- C8 amended: fetchNativePrice propagates a failure exactly when the
request has a network error, the body is not JSON, or the body lacks the
asset-id key (a TypeError from reading .usd of undefined); the HTTP status
is never consulted (responses differing only in status behave identically);
when the asset-id key is present the usd field is returned as-is, undefined
(none) included. There is no retry and no cached fallback: the result is a
pure function of the single response, and the error aborts the pricing
stage (see pricingStage). -/
theorem fetchNativePrice_failure_conditions (chainId st st' : ℕ)
    (entries : List (String × Option ℚ)) :
    (∃ e, fetchNativePrice chainId FetchResult.netError = .error e) ∧
    (∃ e, fetchNativePrice chainId (.badJson st) = .error e) ∧
    ((entries.lookup (nativeAssetId chainId)).isSome = false →
      ∃ e, fetchNativePrice chainId (.json st entries) = .error e) ∧
    (∀ usd, entries.lookup (nativeAssetId chainId) = some usd →
      fetchNativePrice chainId (.json st entries) = .ok usd) ∧
    fetchNativePrice chainId (.json st entries) =
      fetchNativePrice chainId (.json st' entries) := by
  refine ⟨⟨"FetchError", rfl⟩, ⟨"SyntaxError", rfl⟩, ?_, ?_, rfl⟩
  · intro hn
    have hn' : entries.lookup (nativeAssetId chainId) = none := by
      cases hl : entries.lookup (nativeAssetId chainId) with
      | none => rfl
      | some v => rw [hl] at hn; simp at hn
    exact ⟨"TypeError", by simp [fetchNativePrice, hn']⟩
  · intro usd hu
    simp [fetchNativePrice, hu]

/-- C9 counterexample: getToken does not fail when one of the three batched
reads fails; it returns a Token whose corresponding field is undefined. Here
the name read failed and a Token value is still produced, with name = none
and the other two results in place — there is no MetadataUnavailable error
in the code at all. -/
theorem getToken_no_failure_cex :
    getToken "0xdeadbeef00000000000000000000000000000000" none (some "TKN")
      (some 18) =
      { address := "0xdeadbeef00000000000000000000000000000000"
        name := none
        symbol := some "TKN"
        decimals := some 18 } :=
  rfl

/-- C9 amended: getToken is total and never aborts: it returns the token
object that carries the three batched results unchanged (address from the
argument, name, symbol and decimals from the three multicall results), so a
failed read surfaces as an undefined (none) field — no retry, no default
substitution, and a field is undefined exactly when its read failed. -/
theorem getToken_field_passthrough (addr : String)
    (nameRes symbolRes : Option String) (decimalsRes : Option ℕ) :
    (getToken addr nameRes symbolRes decimalsRes).address = addr ∧
    (getToken addr nameRes symbolRes decimalsRes).name = nameRes ∧
    (getToken addr nameRes symbolRes decimalsRes).symbol = symbolRes ∧
    (getToken addr nameRes symbolRes decimalsRes).decimals = decimalsRes ∧
    ((getToken addr nameRes symbolRes decimalsRes).name = none ↔
      nameRes = none) ∧
    ((getToken addr nameRes symbolRes decimalsRes).symbol = none ↔
      symbolRes = none) ∧
    ((getToken addr nameRes symbolRes decimalsRes).decimals = none ↔
      decimalsRes = none) :=
  ⟨rfl, rfl, rfl, rfl, Iff.rfl, Iff.rfl, Iff.rfl⟩

/- Shape of a successful per-pool pricing step: the slot0 result was a
   tuple, the liquidity result a bigint, the two addresses differ, and the
   output is the pricedOf record. -/
theorem pricePool_ok (t w : TokenMeta) (np : JSNum) (pool : Pool)
    (chunk : List CallVal) (pp : PricedPool)
    (h : pricePool t w np pool chunk = .ok pp) :
    ∃ sqrtP tick liq,
      (chunk.get? 1).getD CallVal.undef = .tuple sqrtP tick ∧
      (chunk.get? 0).getD CallVal.undef = .big liq ∧
      hexToNat t.address ≠ hexToNat w.address ∧
      pp = pricedOf t w np pool sqrtP liq := by
  unfold pricePool at h
  cases hs0 : (chunk.get? 1).getD CallVal.undef with
  | undef => rw [hs0] at h; simp at h
  | big n => rw [hs0] at h; simp at h
  | tuple sqrtP tick =>
    rw [hs0] at h
    cases hl : (chunk.get? 0).getD CallVal.undef with
    | undef => rw [hl] at h; simp at h
    | tuple s2 t2 => rw [hl] at h; simp at h
    | big liq =>
      rw [hl] at h
      simp only at h
      by_cases he : hexToNat t.address = hexToNat w.address
      · rw [if_pos he] at h
        simp at h
      · rw [if_neg he] at h
        simp only [Except.ok.injEq] at h
        exact ⟨sqrtP, tick, liq, rfl, rfl, he, h.symm⟩

theorem poolPricingAux_get (t w : TokenMeta) (np : JSNum) :
    ∀ (l : List (List CallVal × Pool)) (out : List PricedPool),
      poolPricingAux t w np l = .ok out →
      out.length = l.length ∧
      ∀ i c p, l.get? i = some (c, p) →
        ∃ pp, out.get? i = some pp ∧ pricePool t w np p c = .ok pp
  | [], out, h => by
    simp only [poolPricingAux, Except.ok.injEq] at h
    subst h
    exact ⟨rfl, by intro i c p hp; simp at hp⟩
  | cp :: rest, out, h => by
    simp only [poolPricingAux] at h
    cases hpp : pricePool t w np cp.2 cp.1 with
    | error e => rw [hpp] at h; simp at h
    | ok pp =>
      rw [hpp] at h
      cases ht : poolPricingAux t w np rest with
      | error e => rw [ht] at h; simp at h
      | ok tail =>
        rw [ht] at h
        simp only [Except.ok.injEq] at h
        subst h
        obtain ⟨hlen, hidx⟩ := poolPricingAux_get t w np rest tail ht
        refine ⟨by simp [hlen], ?_⟩
        intro i c p hp
        cases i with
        | zero =>
          simp only [List.get?_cons_zero, Option.some_inj] at hp
          refine ⟨pp, rfl, ?_⟩
          rw [hp] at hpp
          exact hpp
        | succ i =>
          simp only [List.get?_cons_succ] at hp ⊢
          exact hidx i c p hp

/-- C3: For every pool priced by the pricing stage, priceUSD is the numeric
value of the stored price string times the native USD price, and tvl is
priceUSD times the normalized target reserve plus the native USD price times
the normalized wrapped reserve (with NaN-propagating JS arithmetic), where
np is the single oracle value fetched once for the whole batch (line 269) —
the same np for every index i of the output. -/
theorem pricingStage_usd_tvl (chainId : ℕ) (feed : FetchResult)
    (t w : TokenMeta) (pools : List Pool) (results : List CallVal)
    (np : JSNum) (out : List PricedPool) (i : ℕ) (pp : PricedPool)
    (hnp : fetchNativePrice chainId feed = .ok np)
    (h : pricingStage chainId feed t w pools results = .ok out)
    (hi : out.get? i = some pp) :
    pp.priceUSD = jmul (some (parseFloatQ pp.price)) np ∧
    pp.tvl = jadd (jmul pp.priceUSD pp.tokenReserves)
      (jmul np pp.wrappedReserves) := by
  unfold pricingStage at h
  rw [hnp] at h
  unfold poolPricing at h
  obtain ⟨hlen, hidx⟩ := poolPricingAux_get t w np _ out h
  have hiLt : i < out.length := (List.get?_eq_some.mp hi).1
  have hzLt : i < ((chunkArray results 2).zip pools).length := by
    rw [← hlen]; exact hiLt
  obtain ⟨cp, hcp⟩ : ∃ cp, ((chunkArray results 2).zip pools).get? i =
      some cp := ⟨_, List.get?_eq_get hzLt⟩
  obtain ⟨c, p⟩ := cp
  obtain ⟨pp', hpp', hok⟩ := hidx i c p hcp
  rw [hi] at hpp'
  have hppe := Option.some_inj.mp hpp'
  subst hppe
  obtain ⟨sqrtP, tick, liq, _, _, _, hpe⟩ :=
    pricePool_ok t w np p c pp hok
  subst hpe
  exact ⟨rfl, rfl⟩

/- Concrete pricing-stage inputs for the C3 witness. -/
def oracleFeed : FetchResult := .json 200 [("ethereum", some 2500)]

def tgtToken : TokenMeta :=
  ⟨"0xeeeeeeeeeeeeeeeeeeeeeeeeeeeeeeeeeeeeeeee", 6⟩

def wrapToken : TokenMeta :=
  ⟨"0xcccccccccccccccccccccccccccccccccccccccc", 18⟩

def rPool : Pool :=
  { address := "0x7b00000000000000000000000000000000000000"
    fee := 3000
    wrappedReservesRaw := some 10
    tokenReservesRaw := some 40
    wrappedReserves := some 10
    tokenReserves := some 40 }

def priceResults : List CallVal := [.big 777, .tuple (2 ^ 96) 0]

def pricedOut : List PricedPool :=
  match pricingStage 1 oracleFeed tgtToken wrapToken [rPool] priceResults with
  | .ok o => o
  | .error _ => []

def pricedHead : PricedPool :=
  match pricedOut.get? 0 with
  | some pp => pp
  | none => pricedOf tgtToken wrapToken none rPool 0 0

/-- Witness for C3 at a concrete one-pool batch. -/
theorem pricingStage_usd_tvl_witness :
    pricedHead.priceUSD =
      jmul (some (parseFloatQ pricedHead.price)) (some 2500) ∧
    pricedHead.tvl =
      jadd (jmul pricedHead.priceUSD pricedHead.tokenReserves)
        (jmul (some 2500) pricedHead.wrappedReserves) :=
  pricingStage_usd_tvl 1 oracleFeed tgtToken wrapToken [rPool] priceResults
    (some 2500) pricedOut 0 pricedHead rfl rfl rfl

/-- C1 amended: the price string poolPricing stores for a pool is the
6-significant-digit decimal rendering of the amount of token1 per one token0
of the address-sorted pair (the sdk pool object re-sorts its two tokens so
that token0 is the numerically lower address and the code always reads
token0Price). That equals the claimed target-per-wrapped amount
(specTargetPerWrapped) exactly when the wrapped-native token is token0
(wrapped address numerically below the target address); when the target's
address is the lower one, the stored price is the reciprocal fraction —
wrapped-per-target — contrary to the claim. -/
theorem poolPricing_price_direction (t w : TokenMeta) (pools : List Pool)
    (results : List CallVal) (np : JSNum) (out : List PricedPool) (i : ℕ)
    (pool : Pool) (pp : PricedPool) (sqrtP : ℕ) (tick : ℤ) (liq : ℕ)
    (hlen : results.length = 2 * pools.length)
    (hpool : pools.get? i = some pool)
    (hliq : results.get? (2 * i) = some (.big liq))
    (hslot : results.get? (2 * i + 1) = some (.tuple sqrtP tick))
    (h : poolPricing t w pools results np = .ok out)
    (hpp : out.get? i = some pp) :
    pp.price = toSignificantStr 6
      (if hexToNat t.address < hexToNat w.address
       then (specTargetPerWrapped t w sqrtP).2
       else (specTargetPerWrapped t w sqrtP).1)
      (if hexToNat t.address < hexToNat w.address
       then (specTargetPerWrapped t w sqrtP).1
       else (specTargetPerWrapped t w sqrtP).2) := by
  have hiLt : i < pools.length := (List.get?_eq_some.mp hpool).1
  obtain ⟨x, y, hx, hy, hc⟩ := chunkArray_two_get i results (by omega)
  rw [hliq] at hx
  rw [hslot] at hy
  have hxe := Option.some_inj.mp hx
  have hye := Option.some_inj.mp hy
  subst hxe
  subst hye
  unfold poolPricing at h
  obtain ⟨hlen2, hidx⟩ := poolPricingAux_get t w np _ out h
  obtain ⟨pp', hpp', hok⟩ := hidx i [CallVal.big liq,
    CallVal.tuple sqrtP tick] pool
    ((List.get?_zip_eq_some _ _ ([CallVal.big liq,
      CallVal.tuple sqrtP tick], pool) i).mpr ⟨hc, hpool⟩)
  rw [hpp] at hpp'
  have hppe := Option.some_inj.mp hpp'
  subst hppe
  obtain ⟨sqrtP2, tick2, liq2, hs2, hl2, hne, hpe⟩ :=
    pricePool_ok t w np pool _ pp hok
  simp only [List.get?_cons_succ, List.get?_cons_zero, Option.getD_some,
    CallVal.tuple.injEq, CallVal.big.injEq] at hs2 hl2
  obtain ⟨rfl, rfl⟩ := hs2
  obtain rfl := hl2
  subst hpe
  by_cases hcmp : hexToNat t.address < hexToNat w.address
  · simp [pricedOf, sortedPair, token0PriceFrac, specTargetPerWrapped,
      if_pos hcmp]
  · simp [pricedOf, sortedPair, token0PriceFrac, specTargetPerWrapped,
      if_neg hcmp]

/- Concrete inputs for C1: the target token's address 0x1111...11 is
   numerically below the wrapped token's 0xcccc...cc, so the sdk pool object
   makes the target token0. sqrtPriceX96 = 2 * 2^96 encodes the raw ratio
   sqrtPriceX96^2 / 2^192 = 4 = token1 per token0 = wrapped per target
   (equal decimals), so one wrapped-native unit buys 0.25 target tokens. -/
def invTgt : TokenMeta :=
  ⟨"0x1111111111111111111111111111111111111111", 18⟩

def invWrap : TokenMeta :=
  ⟨"0xcccccccccccccccccccccccccccccccccccccccc", 18⟩

def invPool : Pool :=
  { address := "0x5100000000000000000000000000000000000000"
    fee := 3000
    wrappedReservesRaw := some 10
    tokenReservesRaw := some 40
    wrappedReserves := some 10
    tokenReserves := some 40 }

def invResults : List CallVal := [.big 1000, .tuple (2 ^ 97) 13863]

/-- C1 counterexample: at this pool state the target-per-wrapped amount
implied by sqrtPriceX96 is 0.25 (to 6 significant digits "0.25"), but
poolPricing stores "4" — the wrapped-per-target reciprocal — because the
target token has the numerically lower address and the code reads
token0Price unconditionally. So the stored price is not the target-token
amount per one wrapped-native unit regardless of address order. -/
theorem poolPricing_inverted_price_cex :
    (match poolPricing invTgt invWrap [invPool] invResults (some 2000) with
      | .ok o => o.map (fun pp => pp.price)
      | .error _ => []) = ["4"] ∧
    toSignificantStr 6 (specTargetPerWrapped invTgt invWrap (2 ^ 97)).1
      (specTargetPerWrapped invTgt invWrap (2 ^ 97)).2 = "0.25" ∧
    ("4" : String) ≠ "0.25" :=
  ⟨by decide, by decide, by decide⟩

def invOut : List PricedPool :=
  match poolPricing invTgt invWrap [invPool] invResults (some 2000) with
  | .ok o => o
  | .error _ => []

def invHead : PricedPool :=
  match invOut.get? 0 with
  | some pp => pp
  | none => pricedOf invTgt invWrap none invPool 0 0

/-- Witness for the amended C1 at the concrete inverted-ordering input. -/
theorem poolPricing_price_direction_witness :
    invHead.price = toSignificantStr 6
      (if hexToNat invTgt.address < hexToNat invWrap.address
       then (specTargetPerWrapped invTgt invWrap (2 ^ 97)).2
       else (specTargetPerWrapped invTgt invWrap (2 ^ 97)).1)
      (if hexToNat invTgt.address < hexToNat invWrap.address
       then (specTargetPerWrapped invTgt invWrap (2 ^ 97)).1
       else (specTargetPerWrapped invTgt invWrap (2 ^ 97)).2) :=
  poolPricing_price_direction invTgt invWrap [invPool] invResults
    (some 2000) invOut 0 invPool invHead (2 ^ 97) 13863 1000
    rfl rfl rfl rfl rfl rfl

/-- Witness for the amended C8: an empty JSON body (no asset-id key) makes
the call fail, per the third conjunct. -/
theorem fetchNativePrice_failure_conditions_witness :
    ∃ e, fetchNativePrice 1
      (FetchResult.json 200 ([] : List (String × Option ℚ))) = .error e :=
  (fetchNativePrice_failure_conditions 1 200 500 []).2.2.1 (by decide)
